import Mathlib

/-!
Shallow embedding of `src/pycrystem/diffraction_signal.py` (module-level
functions and the per-frame / per-stack methods of `ElectronDiffraction`).

Conventions of the embedding:
* a 2D numpy array of intensities is a `Frame := List (List ℚ)` in row-major
  order (row index `i` first, column index `j` second), exact rationals
  standing for the float values;
* a hyperspy signal stack is a `Stack := List Frame`, the navigation
  dimension modelled as linear;
* `numpy` float `NaN` arising from `0/0` is modelled as `Option.none`;
* unbounded Python `while` loops are given explicit fuel; running out of
  fuel is distinguished from Python-level exceptions via `Except String`.
-/

/- `Rat.add`/`sub`/`mul`/`inv` are `@[irreducible]` upstream, which blocks
`decide` on concrete rational computations; restore default reducibility for
this development (proof checking is unaffected). -/
attribute [local semireducible] Rat.add Rat.sub Rat.mul Rat.inv

/-- Propositional equality of `Except` values is decidable componentwise
(used to evaluate the embedded functions on concrete inputs). -/
instance {ε α : Type} [DecidableEq ε] [DecidableEq α] :
    DecidableEq (Except ε α) := fun x y => by
  cases x <;> cases y
  case error.error a b =>
    exact if h : a = b then isTrue (h ▸ rfl)
      else isFalse (fun hc => h (by injection hc))
  case ok.ok a b =>
    exact if h : a = b then isTrue (h ▸ rfl)
      else isFalse (fun hc => h (by injection hc))
  case error.ok a b => exact isFalse (fun hc => Except.noConfusion hc)
  case ok.error a b => exact isFalse (fun hc => Except.noConfusion hc)

/-- Value of array `z` at row `i`, column `j` (0 outside the stored grid;
theorems only use in-range indices). -/
def px (z : List (List ℚ)) (i j : ℕ) : ℚ :=
  ((z.getD i []).getD j 0)

/-- A frame: 2D array of intensities. -/
abbrev Frame := List (List ℚ)

/-- A stack of frames indexed by a (linear) navigation coordinate. -/
abbrev Stack := List Frame

/-- Number of rows of a frame (`z.shape[0]`). -/
def nrows (z : Frame) : ℕ := z.length

/-- Number of columns of a frame (`z.shape[1]`, for rectangular frames). -/
def ncols (z : Frame) : ℕ := (z.headD []).length

/-- `z` is a rectangular `h × w` array. -/
def rectangular (z : Frame) (h w : ℕ) : Prop :=
  z.length = h ∧ ∀ row ∈ z, row.length = w

instance (z : Frame) (h w : ℕ) : Decidable (rectangular z h w) := by
  unfold rectangular; infer_instance

/-- Row-major list of all index pairs of `z` (the iteration order of
`numpy.ravel`). -/
def allIdx (z : Frame) : List (ℕ × ℕ) :=
  (List.range z.length).flatMap fun i =>
    (List.range ((z.getD i []).length)).map fun j => (i, j)

/-- Maximum of two rationals (kernel-friendly `if` form of `max`). -/
def qmax (a b : ℚ) : ℚ := if a ≤ b then b else a

/-- Minimum of two rationals (kernel-friendly `if` form of `min`). -/
def qmin (a b : ℚ) : ℚ := if a ≤ b then a else b

/-- Maximum of a list of rationals (`0` for the empty list; frames in the
claims are nonempty). -/
def listMax : List ℚ → ℚ
  | [] => 0
  | a :: t => t.foldl qmax a

/-- Row-major flattening (`numpy.ravel`). -/
def flat (z : Frame) : List ℚ :=
  z.foldr (fun r acc => r ++ acc) []

/-- `array.max()`: maximum entry of a 2D array. -/
def frameMax (z : Frame) : ℚ := listMax (flat z)

/-- `np.average` of a list (`0` on the empty list, which numpy reports as
`nan`; never hit in the claims). -/
def avg (l : List ℚ) : ℚ :=
  if l.length = 0 then 0 else l.sum / (l.length : ℚ)

/-- `np.rint`: round to nearest integer, halves to even. -/
def rintQ (q : ℚ) : ℤ :=
  let f := ⌊q⌋
  let r := q - (f : ℚ)
  if r < 1/2 then f
  else if 1/2 < r then f + 1
  else if f % 2 = 0 then f else f + 1

/-- C-style truncation toward zero, as performed by assigning a float into a
numpy integer array. -/
def truncQ (q : ℚ) : ℤ :=
  if 0 ≤ q then ⌊q⌋ else -⌊-q⌋

/- ### Geometry: `circular_mask(shape, radius, center)`

Source (lines 78–95):
```
r = radius
nx, ny = shape[0], shape[1]
a, b = center
y, x = np.ogrid[-b:ny-b, -a:nx-a]
mask = x*x + y*y <= r*r
```
The `ogrid` first slice has `ny` entries (values `i - b`) and becomes the row
axis; the second has `nx` entries (values `j - a`) and becomes the column
axis, so the produced boolean array has `ny` rows of `nx` columns. -/

/-- The boolean array produced by `circular_mask`. -/
def circular_mask (shape : ℕ × ℕ) (radius : ℚ) (center : ℚ × ℚ) :
    List (List Bool) :=
  (List.range shape.2).map fun (i : ℕ) =>
    (List.range shape.1).map fun (j : ℕ) =>
      decide (((j : ℚ) - center.1) * ((j : ℚ) - center.1) +
        ((i : ℚ) - center.2) * ((i : ℚ) - center.2) ≤ radius * radius)

/- ### RadialProfiler: `radial_average(z, center)`

Source (lines 32–54):
```
y, x = np.indices((z.shape))
r = np.sqrt((x - center[1])**2 + (y - center[0])**2)
r = r.astype(np.int)
tbin = np.bincount(r.ravel(), z.ravel())
nr = np.bincount(r.ravel())
radial_average = tbin / nr
```
-/

/-- Integer-truncated Euclidean distance of pixel `(i, j)` from `center`
(`center` is `(row, col)`): `int(sqrt((j - center[1])² + (i - center[0])²))`.
For a nonnegative rational `q`, `⌊√q⌋ = Nat.sqrt ⌊q⌋`, which keeps the
definition executable. -/
def idist (center : ℚ × ℚ) (i j : ℕ) : ℕ :=
  Nat.sqrt (Int.toNat ⌊((j : ℚ) - center.2) ^ 2 + ((i : ℚ) - center.1) ^ 2⌋)

/-- `r.ravel()`: truncated distances of all pixels, row-major. -/
def ravelDist (z : Frame) (center : ℚ × ℚ) : List ℕ :=
  (allIdx z).map fun p => idist center p.1 p.2

/-- `z.ravel()`: all intensities, row-major (aligned with `ravelDist`). -/
def ravelVals (z : Frame) : List ℚ :=
  (allIdx z).map fun p => px z p.1 p.2

/-- Maximum of a list of naturals (`np.max`, 0 on empty). -/
def listMaxNat (l : List ℕ) : ℕ := l.foldr Nat.max 0

/-- `np.bincount(ks)`: occurrence count of each value `0..max ks`
(empty output on empty input). -/
def bincount (ks : List ℕ) : List ℕ :=
  (List.range (if ks.isEmpty then 0 else listMaxNat ks + 1)).map fun b =>
    (ks.filter fun k => decide (k = b)).length

/-- `np.bincount(ks, weights)`: per-bin sum of weights. -/
def bincountW (ks : List ℕ) (ws : List ℚ) : List ℚ :=
  (List.range (if ks.isEmpty then 0 else listMaxNat ks + 1)).map fun b =>
    (((ks.zip ws).filter fun p => decide (p.1 = b)).map Prod.snd).sum

/-- `radial_average(z, center)`; the elementwise float division `tbin / nr`
yields `NaN` (modelled `none`) exactly on bins with zero count. -/
def radial_average (z : Frame) (center : ℚ × ℚ) : List (Option ℚ) :=
  let rs := ravelDist z center
  let tbin := bincountW rs (ravelVals z)
  let nr := bincount rs
  List.zipWith (fun (t : ℚ) (n : ℕ) =>
    if n = 0 then none else some (t / (n : ℚ))) tbin nr

/- ### CenterFinder: `refine_beam_position(z, start, radius)`

Source (lines 97–145).  The loop body writes `ztmp`, not `z_tmp`, so the
array `z_tmp` (masked around `start`) is never updated; the embedding keeps
that faithfully.  `ztmp` is a Python local that is only assigned inside the
`if` branch and the loop body, hence `Option Frame` (reading it unassigned
raises `UnboundLocalError`).  The unbounded `while` gets explicit fuel;
exhausted fuel is reported as `Except.error "nonterm"`. -/

/-- Row-major positions of the maximal entries, `np.where(w == w.max())`. -/
def argmaxes (w : Frame) : List (ℕ × ℕ) :=
  (allIdx w).filter fun p => decide (px w p.1 p.2 = frameMax w)

/-- `np.rint([np.average(maxes[0]), np.average(maxes[1])]).astype(int)`:
the tie-averaged, banker's-rounded candidate center. -/
def candidate (w : Frame) : ℕ × ℕ :=
  let ms := argmaxes w
  ((rintQ (avg (ms.map fun p => ((p.1 : ℚ))))).toNat,
   (rintQ (avg (ms.map fun p => ((p.2 : ℚ))))).toNat)

/-- `z * mask`: elementwise product of a frame with a boolean array
(numpy semantics on equal shapes; frames in the claims are square, where the
shapes agree). -/
def pyMul (z : Frame) (m : List (List Bool)) : Frame :=
  (List.range z.length).map fun i =>
    (List.range ((z.getD i []).length)).map fun j =>
      px z i j * (if (m.getD i []).getD j false then 1 else 0)

/-- `z * circular_mask(shape=z.shape, radius=radius, center=c)`: the frame
masked by the circle built around the integer center `c`. -/
def maskedAround (z : Frame) (radius : ℚ) (c : ℕ × ℕ) : Frame :=
  pyMul z (circular_mask (z.length, ncols z) radius ((c.1 : ℚ), (c.2 : ℚ)))

/-- Body of the refinement loop: recompute the candidate from `z_tmp`
(never updated by the source), its intensity, and the freshly masked frame
(assigned to the local `ztmp`). -/
def refineStep (z : Frame) (radius : ℚ) (z_tmp : Frame) : ℚ × Frame :=
  let c := candidate z_tmp
  (px z c.1 c.2, maskedAround z radius c)

/-- `while c_int < z_tmp.max(): ...` with fuel; returns the final
`(c_int, ztmp)` state, or `none` when the fuel runs out with the loop
condition still true. -/
def whileRefine (z : Frame) (radius : ℚ) (z_tmp : Frame) :
    ℕ → ℚ → Option Frame → Option (ℚ × Option Frame)
  | 0, c_int, ztmp =>
    if c_int < frameMax z_tmp then none else some (c_int, ztmp)
  | fuel + 1, c_int, ztmp =>
    if c_int < frameMax z_tmp then
      let s := refineStep z radius z_tmp
      whileRefine z radius z_tmp fuel s.1 (some s.2)
    else some (c_int, ztmp)

/-- `ndi.measurements.center_of_mass`: intensity-weighted centroid
`(Σ i·w, Σ j·w) / Σ w` in `(row, col)` order. -/
def center_of_mass (w : Frame) : ℚ × ℚ :=
  let tot := ((allIdx w).map fun p => px w p.1 p.2).sum
  (((allIdx w).map fun p => (p.1 : ℚ) * px w p.1 p.2).sum / tot,
   ((allIdx w).map fun p => (p.2 : ℚ) * px w p.1 p.2).sum / tot)

/-- `refine_beam_position(z, start, radius)` with explicit loop fuel. -/
def refine_beam_position (fuel : ℕ) (z : Frame) (start : ℕ × ℕ)
    (radius : ℚ) : Except String (ℚ × ℚ) :=
  let c_int0 := px z start.1 start.2
  let z_tmp := maskedAround z radius start
  let init : ℚ × Option Frame :=
    if c_int0 = frameMax z_tmp then
      let s := refineStep z radius z_tmp
      (s.1, some s.2)
    else (c_int0, none)
  match whileRefine z radius z_tmp fuel init.1 init.2 with
  | none => .error "nonterm"
  | some (_, none) => .error "UnboundLocalError: ztmp"
  | some (_, some ztmp) => .ok (center_of_mass ztmp)

/-- The refinement loop runs forever on `(z, start, radius)`: no finite fuel
suffices. -/
def loopsForever (z : Frame) (start : ℕ × ℕ) (radius : ℚ) : Prop :=
  ∀ fuel, refine_beam_position fuel z start radius = .error "nonterm"

/- ### `get_direct_beam_position(self, radius)` (lines 191–231)

```
dp_sum = self.sum()
maxes = np.asarray(np.where(dp_sum.data == dp_sum.data.max()))
mref = np.rint([np.average(maxes[0]), np.average(maxes[1])]).astype(int)
c = np.zeros((nav_size, 2), dtype=int)
for z, index in ...: c[index] = refine_beam_position(z, start=mref, radius)
```
Assigning the float pair returned by `refine_beam_position` into the
`dtype=int` array truncates each coordinate toward zero. -/

/-- Elementwise sum of two frames. -/
def frameAdd (a b : Frame) : Frame :=
  List.zipWith (List.zipWith (· + ·)) a b

/-- `self.sum()`: elementwise sum of all frames of the stack. -/
def stackSum : Stack → Frame
  | [] => []
  | z :: rest => rest.foldl frameAdd z

/-- The shared seed `mref` computed from the summed stack. -/
def seedOf (s : Stack) : ℕ × ℕ := candidate (stackSum s)

/-- The `for z, index in ...` collection loop over the navigation
dimension: apply `f` to every frame in order, stopping at the first raised
exception. -/
def mapFrames {β : Type} (f : Frame → Except String β) : List Frame →
    Except String (List β)
  | [] => .ok []
  | z :: t =>
    match f z with
    | .error e => .error e
    | .ok b =>
      match mapFrames f t with
      | .error e => .error e
      | .ok bs => .ok (b :: bs)

/-- `get_direct_beam_position(self, radius)`: one `(row, col)` integer pair
per navigation index. -/
def get_direct_beam_position (fuel : ℕ) (s : Stack) (radius : ℚ) :
    Except String (List (ℤ × ℤ)) :=
  mapFrames (fun z =>
    (refine_beam_position fuel z (seedOf s) radius).map fun com =>
      (truncQ com.1, truncQ com.2)) s

/- ### `get_direct_beam_shifts(self, centers, radius)` (lines 233–272)

```
if centers == None: centers = self.get_direct_beam_position(radius=radius)
if centers != None:
    if centers.shape != (self.axes_manager.navigation_size, 2):
        raise ValueError(...)
shifts = centers - [(self.axes_manager.signal_shape[0] - 1) / 2,
                    (self.axes_manager.signal_shape[1] - 1) / 2]
```
`axes_manager.signal_shape` is `(width, height)`; a supplied `centers` is an
`(n, 2)` integer array, i.e. a list of pairs, so the shape test is a length
test. -/

/-- hyperspy `axes_manager.signal_shape`: `(width, height)` of the frames. -/
def signal_shape (s : Stack) : ℕ × ℕ := (ncols (s.headD []), (s.headD []).length)

/-- `get_direct_beam_shifts(self, centers, radius)`. -/
def get_direct_beam_shifts (fuel : ℕ) (s : Stack)
    (centers : Option (List (ℤ × ℤ))) (radius : ℚ) :
    Except String (List (ℚ × ℚ)) := do
  let cs ← match centers with
    | none => get_direct_beam_position fuel s radius
    | some cs => pure cs
  if cs.length = s.length then
    pure (cs.map fun c =>
      ((c.1 : ℚ) - ((signal_shape s).1 - 1) / 2,
       (c.2 : ℚ) - ((signal_shape s).2 - 1) / 2))
  else
    throw "ValueError: The number of center positions provided must match the navigation_size"

/- ### GeometricTransformer (lines 274–295)

`affine_transformation` delegates the actual resampling to the external
`skimage.transform.warp`, a floating-point spline interpolator outside this
repository; per-frame it is an opaque `Frame → Frame` collaborator, so the
methods below take that per-frame function as a parameter.  hyperspy's
`Signal2D.map` has `inplace=True` by default: it overwrites `self.data` with
the per-frame results and the method returns Python `None` (modelled as the
`Option Stack` value `none` paired with the post-call stack state). -/

/-- Module-level names bound in `diffraction_signal.py` (imports and
top-level `def`s); a bare name used inside a method is looked up here. -/
def module_level_names : List String :=
  ["division", "t", "math", "np", "ndi", "tf", "morphology", "filters",
   "square", "Signal2D", "Signal1D", "preferences", "messagesui",
   "radial_average", "affine_transformation", "circular_mask",
   "refine_beam_position", "ElectronDiffraction"]

/-- `rotate_patterns(self, angle)`: builds the rotation matrix (floats,
always succeeds) and then evaluates the bare name `_affine_transformation`
to pass to `self.map`; `env` gives the value each *bound* module name would
denote as a per-frame function.  Result: `(method return value, post-call
stack)`. -/
def rotate_patterns (_angle : ℚ) (env : String → Frame → Frame) (s : Stack) :
    Except String (Option Stack) × Stack :=
  if "_affine_transformation" ∈ module_level_names then
    (.ok none, s.map (env "_affine_transformation"))
  else
    (.error "NameError: name _affine_transformation is not defined", s)

/-- `correct_geometric_distortion(self, D)`: `self.map(affine_transformation,
matrix=D)`; `warp` is `affine_transformation(·, matrix=D)` (external
resampler). -/
def correct_geometric_distortion (warp : Frame → Frame) (s : Stack) :
    Except String (Option Stack) × Stack :=
  (.ok none, s.map warp)

/- ### BackgroundSubtractor (lines 297–309)

```
def _regional_filter(self, z, h):
    seed = np.copy(z); seed = z - h; mask = z
    dilated = morphology.reconstruction(seed, mask, method='dilation')
    return z - dilated

def remove_background(self, h):
    self.data = self.data / self.data.max()
    self.map(self._regional_filter, h=h)
    self.map(filters.rank.mean, selem=square(3))
    self.data = self.data / self.data.max()
```
`morphology.reconstruction(seed, mask, method='dilation')` (external
skimage) — modelled from the spec: the fixed point of repeatedly dilating
the seed with the default 3×3 structuring neighborhood and clipping
pointwise to the mask; `filters.rank.mean(·, selem=square(3))` (external
skimage) — modelled from the spec: the 3×3 local mean over in-bounds
neighbors. -/

/-- Grayscale dilation with the 3×3 square structuring element;
out-of-bounds neighbors are ignored. -/
def dilate3 (z : Frame) : Frame :=
  (List.range z.length).map fun i =>
    (List.range ((z.getD i []).length)).map fun j =>
      listMax (((allIdx z).filter fun p =>
        decide (p.1 ≤ i + 1 ∧ i ≤ p.1 + 1 ∧ p.2 ≤ j + 1 ∧ j ≤ p.2 + 1)).map
          fun p => px z p.1 p.2)

/-- One reconstruction sweep: dilate, then clip pointwise to `mask`. -/
def dilateClip (mask x : Frame) : Frame :=
  List.zipWith (List.zipWith qmin) (dilate3 x) mask

/-- `n` reconstruction sweeps starting from `x`. -/
def reconIter (mask : Frame) : ℕ → Frame → Frame
  | 0, x => x
  | n + 1, x => reconIter mask n (dilateClip mask x)

/-- Modelled from the spec: `skimage.morphology.reconstruction(seed, mask,
method='dilation')` — iterate dilate-and-clip sweeps from `seed` until a
fixed point; `none` when `fuel` sweeps do not reach one. -/
def reconstruction : ℕ → Frame → Frame → Option Frame
  | 0, _, _ => none
  | fuel + 1, x, mask =>
    let next := dilateClip mask x
    if next = x then some x else reconstruction fuel next mask

/-- Pointwise difference of two same-shape frames. -/
def frameSub (a b : Frame) : Frame :=
  List.zipWith (List.zipWith (· - ·)) a b

/-- `z - h`: subtract a scalar from every entry. -/
def subScalar (z : Frame) (h : ℚ) : Frame :=
  z.map (List.map (· - h))

/-- `_regional_filter(self, z, h)`. -/
def regional_filter (fuel : ℕ) (z : Frame) (h : ℚ) : Option Frame :=
  (reconstruction fuel (subScalar z h) z).map fun dilated => frameSub z dilated

/-- Modelled from the spec: `filters.rank.mean(z, selem=square(3))` — the
3×3 local mean over in-bounds neighbors. -/
def mean3 (z : Frame) : Frame :=
  (List.range z.length).map fun i =>
    (List.range ((z.getD i []).length)).map fun j =>
      avg (((allIdx z).filter fun p =>
        decide (p.1 ≤ i + 1 ∧ i ≤ p.1 + 1 ∧ p.2 ≤ j + 1 ∧ j ≤ p.2 + 1)).map
          fun p => px z p.1 p.2)

/-- `self.data.max()`: global maximum over the whole stack. -/
def stackMax (s : Stack) : ℚ := listMax (s.flatMap flat)

/-- `self.data / d`: divide every entry of the stack by a scalar. -/
def stackDiv (s : Stack) (d : ℚ) : Stack :=
  s.map fun z => z.map (List.map (· / d))

/-- Apply a partial per-frame function to every frame (`self.map` with a
fuel-limited collaborator); `none` as soon as any frame's fuel runs out. -/
def mapFramesOpt (f : Frame → Option Frame) : List Frame →
    Option (List Frame)
  | [] => some []
  | z :: t =>
    match f z with
    | none => none
    | some w =>
      match mapFramesOpt f t with
      | none => none
      | some ws => some (w :: ws)

/-- `remove_background(self, h)` as a transformation of the stack data. -/
def remove_background (fuel : ℕ) (s : Stack) (h : ℚ) : Option Stack :=
  let s1 := stackDiv s (stackMax s)
  match mapFramesOpt (fun z => regional_filter fuel z h) s1 with
  | none => none
  | some s2 =>
    let s3 := s2.map mean3
    some (stackDiv s3 (stackMax s3))

/-- The method call `self.remove_background(h)`: return value (Python
`None`) and post-call stack state. -/
def remove_background_call (fuel : ℕ) (s : Stack) (h : ℚ) :
    Except String (Option Stack) × Stack :=
  match remove_background fuel s h with
  | some out => (.ok none, out)
  | none => (.error "nonterm", s)

/- ### VacuumMaskBuilder (lines 164–189, 350–395)

```
def get_direct_beam_mask(self, radius=None, center=None):
    shape = self.axes_manager.signal_shape
    if center == None:
        center = (shape[1] - 1) / 2, (shape[0] - 1) / 2
    signal_mask = Signal2D(circular_mask(shape=shape, radius=radius,
                                         center=center))

db = np.invert(self.get_direct_beam_mask(radius=radius, center=center))
diff_only = self * db
mask = (diff_only.max((-1, -2)) <= threshold)
if closing:
    mask.data = ndi.morphology.binary_dilation(mask.data, border_value=0)
    mask.data = ndi.morphology.binary_erosion(mask.data, border_value=1)
if opening:
    mask.data = ndi.morphology.binary_erosion(mask.data, border_value=1)
    mask.data = ndi.morphology.binary_dilation(mask.data, border_value=0)
```
The navigation dimension is modelled as linear, so the default structuring
element of the scipy binary morphology is the 1D element `[1,1,1]`. -/

/-- `get_direct_beam_mask(self, radius, center)`. -/
def get_direct_beam_mask (s : Stack) (radius : ℚ) (center : Option (ℚ × ℚ)) :
    List (List Bool) :=
  let shape := signal_shape s
  let c := center.getD ((((shape.2 : ℚ) - 1) / 2), (((shape.1 : ℚ) - 1) / 2))
  circular_mask shape radius c

/-- `np.invert` of a boolean array. -/
def invertMask (m : List (List Bool)) : List (List Bool) :=
  m.map (List.map not)

/-- `ndi.morphology.binary_dilation(l, border_value=b)` on a 1D boolean
array with the default structuring element `[1,1,1]`. -/
def binary_dilation (l : List Bool) (border : Bool) : List Bool :=
  (List.range l.length).map fun i =>
    (if i = 0 then border else l.getD (i - 1) border) || l.getD i border ||
      l.getD (i + 1) border

/-- `ndi.morphology.binary_erosion(l, border_value=b)` on a 1D boolean
array with the default structuring element `[1,1,1]`. -/
def binary_erosion (l : List Bool) (border : Bool) : List Bool :=
  (List.range l.length).map fun i =>
    (if i = 0 then border else l.getD (i - 1) border) && l.getD i border &&
      l.getD (i + 1) border

/-- `get_vacuum_mask(self, radius, center, threshold, closing, opening)`. -/
def get_vacuum_mask (s : Stack) (radius : ℚ) (center : Option (ℚ × ℚ))
    (threshold : ℚ) (closing opening : Bool) : List Bool :=
  let db := invertMask (get_direct_beam_mask s radius center)
  let mask0 := s.map fun z => decide (frameMax (pyMul z db) ≤ threshold)
  let mask1 :=
    if closing then binary_erosion (binary_dilation mask0 false) true
    else mask0
  if opening then binary_dilation (binary_erosion mask1 true) false
  else mask1

/- ### Helper lemmas -/

theorem getD_map_range {α : Type} (f : ℕ → α) (n i : ℕ) (d : α) (h : i < n) :
    ((List.range n).map f).getD i d = f i := by
  rw [List.getD_eq_getElem?_getD, List.getElem?_map, List.getElem?_range h]
  rfl

/- ### C3 / C4: the circular mask -/

/-- C3: for every frame shape, radius and (possibly non-integer) center, the
entry of the circular mask at row `y`, column `x` is `true` iff
`(x - center.x)² + (y - center.y)² ≤ radius²` (with `center.x` the first
component of `center`, as in the source's `a, b = center`), the comparison
taken in exact (rational) arithmetic.  The index ranges are those of the
returned array; its overall shape is the subject of C4. -/
theorem circular_mask_membership (shape : ℕ × ℕ) (radius : ℚ) (center : ℚ × ℚ)
    (y x : ℕ) (_hr : 0 < radius) (hy : y < shape.2) (hx : x < shape.1) :
    (((circular_mask shape radius center).getD y []).getD x false = true ↔
      ((x : ℚ) - center.1) ^ 2 + ((y : ℚ) - center.2) ^ 2 ≤ radius ^ 2) := by
  unfold circular_mask
  rw [getD_map_range _ _ _ _ hy, getD_map_range _ _ _ _ hx]
  simp [sq]

/-- Witness for C3 at a concrete input: shape `(3, 3)`, radius `1`,
center `(3/2, 1/2)`, pixel `(y, x) = (0, 1)`. -/
theorem circular_mask_membership_witness :
    (0 : ℚ) < 1 ∧ (0 : ℕ) < 3 ∧ (1 : ℕ) < 3 ∧
      ((((circular_mask (3, 3) 1 ((3/2 : ℚ), 1/2)).getD 0 []).getD 1 false =
          true) ↔
        ((1 : ℚ) - 3/2) ^ 2 + ((0 : ℚ) - 1/2) ^ 2 ≤ (1 : ℚ) ^ 2) :=
  ⟨by decide, by decide, by decide,
    circular_mask_membership (3, 3) 1 ((3/2 : ℚ), 1/2) 0 1 (by decide)
      (by decide) (by decide)⟩

/-- C4: the mask array returned by `circular_mask` for a frame shape
`(2, 3)` has shape `(3, 2)` — the transpose of the frame shape — because the
source builds `ogrid` ranges of lengths `shape[1]` (rows) and `shape[0]`
(columns).  The claimed invariant `mask shape == frame shape` fails for
every non-square shape. -/
theorem circular_mask_shape_transposed :
    ((circular_mask (2, 3) 1 ((0 : ℚ), 0)).length,
        ((circular_mask (2, 3) 1 ((0 : ℚ), 0)).getD 0 []).length) = (3, 2) ∧
      ((3, 2) : ℕ × ℕ) ≠ (2, 3) := by
  decide

/- ### C7: `rotate_patterns` -/

/-- C7: for every angle, every assignment of per-frame functions to bound
module names, and every stack, `rotate_patterns` raises
`NameError` — the bare name `_affine_transformation` it passes to
`self.map` is not bound anywhere in the module (the module defines
`affine_transformation`) — and the stack is left unchanged; no frame is
ever warped. -/
theorem rotate_patterns_name_error (angle : ℚ)
    (env : String → Frame → Frame) (s : Stack) :
    rotate_patterns angle env s =
      (.error "NameError: name _affine_transformation is not defined", s) := by
  unfold rotate_patterns
  rw [if_neg (by decide)]

/- ### C1: the refinement loop -/

theorem whileRefine_exit (z : Frame) (radius : ℚ) (z_tmp : Frame)
    (fuel : ℕ) (c_int : ℚ) (ztmp : Option Frame)
    (h : ¬ c_int < frameMax z_tmp) :
    whileRefine z radius z_tmp fuel c_int ztmp = some (c_int, ztmp) := by
  cases fuel <;> simp [whileRefine, h]

theorem whileRefine_const_none (z : Frame) (radius : ℚ) (z_tmp : Frame)
    (h : (refineStep z radius z_tmp).1 < frameMax z_tmp) :
    ∀ fuel ztmp,
      whileRefine z radius z_tmp fuel (refineStep z radius z_tmp).1 ztmp =
        none := by
  intro fuel
  induction fuel with
  | zero => intro ztmp; simp [whileRefine, h]
  | succ n ih => intro ztmp; simp only [whileRefine, if_pos h]; exact ih _

/-- C1 (amended): the iterative search in `refine_beam_position` does *not*
always terminate, and its stopping condition is evaluated against the frame
masked around the *start* position, not around the current center: the loop
body assigns `ztmp` while the condition reads `z_tmp`, so the masked frame
and hence the candidate center `c* = candidate (maskedAround z radius
start)` never change.  For any fuel ≥ 1: the loop runs forever iff
`I(start) ≤ max(M₀)` and `I(c*) < max(M₀)` (where `M₀` is the start-masked
frame); and whenever `I(start) ≤ max(M₀) ≤ I(c*)` it stops, returning the
center of mass of the frame masked around `c*`. -/
theorem refine_beam_position_loop_behavior (z : Frame) (start : ℕ × ℕ)
    (radius : ℚ) (fuel : ℕ) (hf : 1 ≤ fuel) :
    (refine_beam_position fuel z start radius = .error "nonterm" ↔
      px z start.1 start.2 ≤ frameMax (maskedAround z radius start) ∧
        (refineStep z radius (maskedAround z radius start)).1 <
          frameMax (maskedAround z radius start)) ∧
    (px z start.1 start.2 ≤ frameMax (maskedAround z radius start) →
      frameMax (maskedAround z radius start) ≤
        (refineStep z radius (maskedAround z radius start)).1 →
      refine_beam_position fuel z start radius =
        .ok (center_of_mass
          (refineStep z radius (maskedAround z radius start)).2)) := by
  unfold refine_beam_position
  set M := maskedAround z radius start with hM
  set c0 := px z start.1 start.2 with hc0
  set s := refineStep z radius M with hs
  by_cases h0 : c0 = frameMax M
  · simp only [if_pos h0]
    by_cases h1 : s.1 < frameMax M
    · rw [whileRefine_const_none z radius M h1 fuel (some s.2)]
      constructor
      · simp [le_of_eq h0, h1]
      · intro _ hge; exact absurd h1 (not_lt.mpr hge)
    · rw [whileRefine_exit z radius M fuel s.1 (some s.2) h1]
      constructor
      · show Except.ok (center_of_mass s.2) = .error "nonterm" ↔ _
        simp [h1]
      · intro _ _
        show Except.ok (center_of_mass s.2) = .ok (center_of_mass s.2)
        rfl
  · simp only [if_neg h0]
    by_cases h0lt : c0 < frameMax M
    · obtain ⟨n, rfl⟩ : ∃ n, fuel = n + 1 := ⟨fuel - 1, by omega⟩
      simp only [whileRefine, if_pos h0lt]
      by_cases h1 : s.1 < frameMax M
      · rw [whileRefine_const_none z radius M h1 n (some s.2)]
        constructor
        · simp [le_of_lt h0lt, h1]
        · intro _ hge; exact absurd h1 (not_lt.mpr hge)
      · rw [whileRefine_exit z radius M n s.1 (some s.2) h1]
        constructor
        · show Except.ok (center_of_mass s.2) = .error "nonterm" ↔ _
          simp [h1]
        · intro _ _
          show Except.ok (center_of_mass s.2) = .ok (center_of_mass s.2)
          rfl
    · rw [whileRefine_exit z radius M fuel c0 none h0lt]
      have hgt : frameMax M < c0 := lt_of_le_of_ne (not_lt.mp h0lt) (Ne.symm h0)
      constructor
      · show Except.error "UnboundLocalError: ztmp" = .error "nonterm" ↔ _
        simp only [Except.error.injEq]
        constructor
        · intro hstr; exact absurd hstr (by decide)
        · rintro ⟨hle, -⟩; exact absurd hle (not_le.mpr hgt)
      · intro hle _; exact absurd hle (not_le.mpr hgt)

/-- Witness for C1's theorem: on the frame `[[4,1],[0,0]]` with start
`(0,0)`, radius `5` and fuel `1`, the hypotheses hold concretely and the
search stops with the center of mass of the finally masked frame. -/
theorem refine_beam_position_loop_behavior_witness :
    refine_beam_position 1 [[4,1],[0,0]] (0,0) 5 =
      .ok (center_of_mass
        (refineStep [[4,1],[0,0]] 5 (maskedAround [[4,1],[0,0]] 5 (0,0))).2) :=
  (refine_beam_position_loop_behavior [[4,1],[0,0]] (0,0) 5 1 (by decide)).2
    (by decide) (by decide)

/-- Counterexample to C1 as stated: on the frame `[[5,0,5],[0,0,0],[0,0,0]]`
(two tied maxima whose rounded coordinate average `(0,1)` carries intensity
`0 < 5`), start `(1,1)` (inside the frame) and positive radius `5`, the
iterative search never terminates: every fuel is exhausted with the loop
condition still true. -/
theorem refine_beam_position_diverges :
    loopsForever [[5,0,5],[0,0,0],[0,0,0]] (1,1) 5 := by
  intro fuel
  cases fuel with
  | zero => decide
  | succ n =>
    show refine_beam_position (n+1) [[5,0,5],[0,0,0],[0,0,0]] (1,1) 5 = _
    unfold refine_beam_position
    have hne : ¬ (px [[5,0,5],[0,0,0],[0,0,0]] (1,1).1 (1,1).2 =
        frameMax (maskedAround [[5,0,5],[0,0,0],[0,0,0]] 5 (1,1))) := by decide
    have hlt : px [[5,0,5],[0,0,0],[0,0,0]] (1,1).1 (1,1).2 <
        frameMax (maskedAround [[5,0,5],[0,0,0],[0,0,0]] 5 (1,1)) := by decide
    simp only [if_neg hne]
    simp only [whileRefine, if_pos hlt]
    rw [whileRefine_const_none _ _ _ (by decide) n _]

/- ### C5: `get_direct_beam_position` -/

theorem mapFrames_ok_length {β : Type} (f : Frame → Except String β) :
    ∀ (l : List Frame) (out : List β),
      mapFrames f l = .ok out → out.length = l.length := by
  intro l
  induction l with
  | nil => intro out h; cases h; rfl
  | cons a t ih =>
    intro out h
    unfold mapFrames at h
    cases hfa : f a with
    | error e => rw [hfa] at h; exact absurd h (by simp)
    | ok b =>
      rw [hfa] at h
      cases hft : mapFrames f t with
      | error e => rw [hft] at h; exact absurd h (by simp)
      | ok bs =>
        rw [hft] at h
        cases h
        simp [ih bs hft]

theorem mapFrames_ok_map {β γ : Type} (f : Frame → Except String β)
    (g : β → γ) :
    ∀ (l : List Frame) (out : List β), mapFrames f l = .ok out →
      mapFrames (fun a => (f a).map g) l = .ok (out.map g) := by
  intro l
  induction l with
  | nil => intro out h; cases h; rfl
  | cons a t ih =>
    intro out h
    unfold mapFrames at h ⊢
    cases hfa : f a with
    | error e => rw [hfa] at h; exact absurd h (by simp)
    | ok b =>
      rw [hfa] at h
      cases hft : mapFrames f t with
      | error e => rw [hft] at h; exact absurd h (by simp)
      | ok bs =>
        rw [hft] at h
        cases h
        rw [ih bs hft]
        simp [Except.map]

/-- C5 (amended): `get_direct_beam_position` returns one entry per
navigation index, each equal to the result of `refine_beam_position` on
that frame with the shared seed — but truncated toward zero to integers,
because the per-frame results are assigned into a `dtype=int` array.  The
sub-pixel precision of `refine_beam_position` is *not* retained. -/
theorem get_direct_beam_position_truncates (fuel : ℕ) (s : Stack)
    (radius : ℚ) (coms : List (ℚ × ℚ))
    (h : mapFrames (fun z => refine_beam_position fuel z (seedOf s) radius) s
      = .ok coms) :
    get_direct_beam_position fuel s radius =
      .ok (coms.map fun com => (truncQ com.1, truncQ com.2)) ∧
    coms.length = s.length := by
  constructor
  · exact mapFrames_ok_map _ _ s coms h
  · exact mapFrames_ok_length _ s coms h

/-- Witness for C5's theorem on the one-frame stack `[[[4,1],[0,0]]]` with
radius `5`, where the per-frame refinement returns `(0, 1/5)`. -/
theorem get_direct_beam_position_truncates_witness :
    mapFrames (fun z => refine_beam_position 1 z (seedOf [[[4,1],[0,0]]]) 5)
        [[[4,1],[0,0]]] = .ok [((0 : ℚ), 1/5)] ∧
    (get_direct_beam_position 1 [[[4,1],[0,0]]] 5 =
        .ok (([((0 : ℚ), 1/5)]).map fun com => (truncQ com.1, truncQ com.2)) ∧
      ([((0 : ℚ), 1/5)]).length = ([[[4,1],[0,0]]] : Stack).length) :=
  ⟨by decide,
    get_direct_beam_position_truncates 1 [[[4,1],[0,0]]] 5 [((0 : ℚ), 1/5)]
      (by decide)⟩

/-- Counterexample to C5 as stated: on the one-frame stack `[[[4,1],[0,0]]]`
with radius `5`, `refine_beam_position` returns the sub-pixel center
`(0, 1/5)`, but `get_direct_beam_position` stores `(0, 0)` — the entry does
not equal the sub-pixel result, whose fractional part is discarded. -/
theorem get_direct_beam_position_subpixel_cex :
    get_direct_beam_position 1 [[[4,1],[0,0]]] 5 = .ok [(0, 0)] ∧
    refine_beam_position 1 [[4,1],[0,0]] (seedOf [[[4,1],[0,0]]]) 5 =
      .ok (0, 1/5) ∧
    (((0 : ℤ) : ℚ), ((0 : ℤ) : ℚ)) ≠ ((0 : ℚ), 1/5) :=
  ⟨by decide, by decide, by decide⟩

/- ### C6: `get_direct_beam_shifts` -/

/-- C6: `get_direct_beam_shifts` raises `ValueError` iff the supplied
centers sequence's length differs from the navigation size; on a correctly
sized sequence it returns `centers[i] − ((W−1)/2, (H−1)/2)` per index (with
`(W, H)` the hyperspy `signal_shape`); and with no centers supplied it
behaves as if the sequence computed by `get_direct_beam_position` had been
supplied. -/
theorem get_direct_beam_shifts_validation (fuel : ℕ) (s : Stack)
    (radius : ℚ) (cs : List (ℤ × ℤ)) :
    (cs.length ≠ s.length →
      get_direct_beam_shifts fuel s (some cs) radius =
        .error "ValueError: The number of center positions provided must match the navigation_size") ∧
    (cs.length = s.length →
      get_direct_beam_shifts fuel s (some cs) radius = .ok (cs.map fun c =>
        ((c.1 : ℚ) - ((ncols (s.headD []) : ℚ) - 1) / 2,
         (c.2 : ℚ) - (((s.headD []).length : ℚ) - 1) / 2))) ∧
    (∀ cs0, get_direct_beam_position fuel s radius = .ok cs0 →
      get_direct_beam_shifts fuel s none radius =
        get_direct_beam_shifts fuel s (some cs0) radius) := by
  refine ⟨fun hne => ?_, fun heq => ?_, fun cs0 h0 => ?_⟩
  · unfold get_direct_beam_shifts
    simp only [Bind.bind, Except.bind, pure, Except.pure, if_neg hne]
    rfl
  · unfold get_direct_beam_shifts
    simp only [Bind.bind, Except.bind, pure, Except.pure, if_pos heq,
      signal_shape]
  · unfold get_direct_beam_shifts
    rw [h0]
    simp only [Bind.bind, Except.bind, pure, Except.pure]

/-- Witness for C6's theorem: a correctly sized centers list on a one-frame
stack of `2 × 2` frames yields the shifts `centers[i] − (1/2, 1/2)`. -/
theorem get_direct_beam_shifts_validation_witness :
    ([((1 : ℤ), (1 : ℤ))]).length = ([[[4,1],[0,0]]] : Stack).length ∧
    get_direct_beam_shifts 1 [[[4,1],[0,0]]] (some [(1, 1)]) 5 =
      .ok (([((1 : ℤ), (1 : ℤ))]).map fun c =>
        ((c.1 : ℚ) - ((ncols (([[[4,1],[0,0]]] : Stack).headD []) : ℚ) - 1) / 2,
         (c.2 : ℚ) -
           (((([[[4,1],[0,0]]] : Stack).headD []).length : ℚ) - 1) / 2)) :=
  ⟨by decide,
    (get_direct_beam_shifts_validation 1 [[[4,1],[0,0]]] 5 [(1, 1)]).2.1
      (by decide)⟩

/- ### C2: the radial profile -/

/-- Squared Euclidean distance of pixel `(i, j)` (row, col) from a center
given as `(row, col)` — the quantity under the square root in the source. -/
def dsq (center : ℚ × ℚ) (i j : ℕ) : ℚ :=
  ((j : ℚ) - center.2) ^ 2 + ((i : ℚ) - center.1) ^ 2

theorem dsq_nonneg (center : ℚ × ℚ) (i j : ℕ) : 0 ≤ dsq center i j :=
  add_nonneg (sq_nonneg _) (sq_nonneg _)

/-- `⌊√q⌋ = r` iff `r² ≤ q < (r+1)²`: the truncated square root of a
nonnegative rational, as computed by `Nat.sqrt ⌊q⌋`. -/
theorem sqrt_floor_eq_iff (q : ℚ) (hq : 0 ≤ q) (r : ℕ) :
    Nat.sqrt (Int.toNat ⌊q⌋) = r ↔
      ((r : ℚ)) ^ 2 ≤ q ∧ q < ((r : ℚ) + 1) ^ 2 := by
  have hfl : (0 : ℤ) ≤ ⌊q⌋ := Int.floor_nonneg.mpr hq
  set n := Int.toNat ⌊q⌋ with hn
  have hcast : ∀ m : ℕ, (m ≤ n ↔ ((m : ℤ) ≤ ⌊q⌋)) := by intro m; omega
  have hcast2 : ∀ m : ℕ, (n < m ↔ (⌊q⌋ < (m : ℤ))) := by intro m; omega
  have hle : ∀ m : ℕ, ((m : ℤ) ≤ ⌊q⌋ ↔ ((m : ℚ) ≤ q)) := by
    intro m; rw [Int.le_floor]; push_cast; rfl
  have hlt : ∀ m : ℕ, (⌊q⌋ < (m : ℤ) ↔ (q < (m : ℚ))) := by
    intro m; rw [Int.floor_lt]; push_cast; rfl
  constructor
  · rintro rfl
    constructor
    · have h1 : Nat.sqrt n * Nat.sqrt n ≤ n := Nat.sqrt_le n
      have h2 := (hle (Nat.sqrt n * Nat.sqrt n)).mp ((hcast _).mp h1)
      push_cast at h2
      nlinarith [h2]
    · have h1 : n < (Nat.sqrt n + 1) * (Nat.sqrt n + 1) := Nat.lt_succ_sqrt n
      have h2 := (hlt ((Nat.sqrt n + 1) * (Nat.sqrt n + 1))).mp
        ((hcast2 _).mp h1)
      push_cast at h2
      nlinarith [h2]
  · rintro ⟨h1, h2⟩
    have ha : r * r ≤ n :=
      (hcast _).mpr ((hle (r * r)).mpr (by push_cast; nlinarith))
    have hb : n < (r + 1) * (r + 1) :=
      (hcast2 _).mpr ((hlt ((r + 1) * (r + 1))).mpr (by push_cast; nlinarith))
    have hge : r ≤ Nat.sqrt n := Nat.le_sqrt.mpr ha
    have hlt2 : Nat.sqrt n < r + 1 := by
      by_contra hc
      push_neg at hc
      have h3 : (r + 1) * (r + 1) ≤ Nat.sqrt n * Nat.sqrt n :=
        Nat.mul_le_mul hc hc
      have h4 := Nat.sqrt_le n
      omega
    omega

/-- A pixel's truncated distance equals `r` iff its exact squared distance
lies in `[r², (r+1)²)` — i.e. iff `r` is the Euclidean distance truncated
toward zero to an integer. -/
theorem idist_eq_iff (center : ℚ × ℚ) (i j r : ℕ) :
    idist center i j = r ↔
      ((r : ℚ)) ^ 2 ≤ dsq center i j ∧ dsq center i j < ((r : ℚ) + 1) ^ 2 :=
  sqrt_floor_eq_iff (dsq center i j) (dsq_nonneg center i j) r

/-- Value of radial bin `r` as the claim describes it: the sum of the
intensities of the pixels whose truncated Euclidean distance from the
center equals `r` (characterised by `r² ≤ d² < (r+1)²`), divided by the
number of such pixels; `none` when there is no such pixel. -/
def specRadialBin (z : Frame) (center : ℚ × ℚ) (r : ℕ) : Option ℚ :=
  let ps := (allIdx z).filter fun p =>
    decide (((r : ℚ)) ^ 2 ≤ dsq center p.1 p.2 ∧
      dsq center p.1 p.2 < ((r : ℚ) + 1) ^ 2)
  if ps.length = 0 then none
  else some ((ps.map fun p => px z p.1 p.2).sum / (ps.length : ℚ))

theorem zipWith_map_same {α β γ δ : Type} (h : β → γ → δ) (f : α → β)
    (g : α → γ) : ∀ l : List α,
      List.zipWith h (l.map f) (l.map g) = l.map fun x => h (f x) (g x)
  | [] => rfl
  | a :: t => by simp [List.zipWith, zipWith_map_same h f g t]

/-- C2: for every (nonempty) frame and every center, `radial_average`
returns a profile indexed by the integer bins `r = 0 .. max r`, whose `r`-th
entry is the sum of the intensities of the pixels at truncated Euclidean
distance `r` divided by the count of such pixels, and is the missing
sentinel (`none`, numpy's `NaN` from `0/0`) exactly when that count is
zero — never a silently coerced zero, and without raising any error. -/
theorem radial_average_bins (z : Frame) (c : ℚ × ℚ) (hne : allIdx z ≠ []) :
    radial_average z c =
      (List.range (listMaxNat (ravelDist z c) + 1)).map (specRadialBin z c) := by
  have hrs : (ravelDist z c).isEmpty = false := by
    unfold ravelDist
    cases hi : allIdx z with
    | nil => exact absurd hi hne
    | cons a t => simp
  unfold radial_average bincount bincountW
  simp only [hrs, Bool.false_eq_true, if_false]
  unfold ravelDist ravelVals
  rw [zipWith_map_same]
  apply List.map_congr_left
  intro b _
  rw [List.zip_map', List.filter_map, List.filter_map, List.map_map]
  have h1 : List.filter ((fun k => decide (k = b)) ∘
        fun p : ℕ × ℕ => idist c p.1 p.2) (allIdx z) =
      List.filter (fun p => decide (((b : ℚ)) ^ 2 ≤ dsq c p.1 p.2 ∧
        dsq c p.1 p.2 < ((b : ℚ) + 1) ^ 2)) (allIdx z) :=
    List.filter_congr fun p _ => decide_eq_decide.mpr (idist_eq_iff c p.1 p.2 b)
  have h2 : List.filter ((fun p : ℕ × ℚ => decide (p.1 = b)) ∘
        fun a : ℕ × ℕ => (idist c a.1 a.2, px z a.1 a.2)) (allIdx z) =
      List.filter (fun p => decide (((b : ℚ)) ^ 2 ≤ dsq c p.1 p.2 ∧
        dsq c p.1 p.2 < ((b : ℚ) + 1) ^ 2)) (allIdx z) :=
    List.filter_congr fun p _ => decide_eq_decide.mpr (idist_eq_iff c p.1 p.2 b)
  rw [h1, h2]
  simp only [List.length_map]
  rfl

/-- Witness for C2's theorem on the frame `[[1,2],[3,4]]` with center
`(0,0)` (profile `[some 1, some 3]`). -/
theorem radial_average_bins_witness :
    allIdx ([[1,2],[3,4]] : Frame) ≠ [] ∧
    radial_average [[1,2],[3,4]] ((0 : ℚ), 0) =
      (List.range (listMaxNat (ravelDist [[1,2],[3,4]] ((0 : ℚ), 0)) + 1)).map
        (specRadialBin [[1,2],[3,4]] ((0 : ℚ), 0)) :=
  ⟨by decide, radial_average_bins [[1,2],[3,4]] ((0 : ℚ), 0) (by decide)⟩

/- ### C8: `remove_background` -/

/-- A reconstruction result is a fixed point of the dilate-and-clip sweep,
reached by iterating the sweep from the starting image. -/
theorem reconstruction_fixed (mask : Frame) :
    ∀ (fuel : ℕ) (x r : Frame), reconstruction fuel x mask = some r →
      dilateClip mask r = r ∧ ∃ n, reconIter mask n x = r := by
  intro fuel
  induction fuel with
  | zero => intro x r h; exact absurd h (by simp [reconstruction])
  | succ n ih =>
    intro x r h
    unfold reconstruction at h
    by_cases hc : dilateClip mask x = x
    · rw [if_pos hc] at h
      cases h
      exact ⟨hc, 0, rfl⟩
    · rw [if_neg hc] at h
      obtain ⟨hfix, m, hm⟩ := ih _ _ h
      exact ⟨hfix, m + 1, hm⟩

/-- Unfolding the per-frame mapping of `_regional_filter` over a stack:
each output frame is the input frame minus a reconstruction that is a
fixed point of dilate-and-clip reached from the seed `frame − h`. -/
theorem mapFramesOpt_regional (fuel : ℕ) (h : ℚ) :
    ∀ (l l2 : List Frame),
      mapFramesOpt (fun z => regional_filter fuel z h) l = some l2 →
      ∃ recs : List Frame, recs.length = l.length ∧
        l2 = List.zipWith frameSub l recs ∧
        ∀ i, i < l.length →
          dilateClip (l.getD i []) (recs.getD i []) = recs.getD i [] ∧
          ∃ n, reconIter (l.getD i []) n (subScalar (l.getD i []) h) =
            recs.getD i [] := by
  intro l
  induction l with
  | nil =>
    intro l2 hl2
    cases hl2
    exact ⟨[], rfl, rfl, fun i hi => absurd hi (by simp)⟩
  | cons z t ih =>
    intro l2 hl2
    unfold mapFramesOpt at hl2
    cases hfz : regional_filter fuel z h with
    | none => rw [hfz] at hl2; exact Option.noConfusion hl2
    | some w =>
      rw [hfz] at hl2
      cases hft : mapFramesOpt (fun z => regional_filter fuel z h) t with
      | none => rw [hft] at hl2; exact Option.noConfusion hl2
      | some ws =>
        rw [hft] at hl2
        cases hl2
        obtain ⟨recs, hlen, hzip, hprop⟩ := ih ws hft
        unfold regional_filter at hfz
        cases hrec : reconstruction fuel (subScalar z h) z with
        | none => rw [hrec] at hfz; exact Option.noConfusion hfz
        | some rec0 =>
          rw [hrec] at hfz
          simp only [Option.map_some'] at hfz
          injection hfz with hw
          subst hw
          obtain ⟨hfix, m, hm⟩ := reconstruction_fixed z fuel _ rec0 hrec
          refine ⟨rec0 :: recs, by simp [hlen], ?_, ?_⟩
          · simp [List.zipWith, hzip]
          · intro i hi
            cases i with
            | zero => exact ⟨hfix, m, hm⟩
            | succ i' =>
              have := hprop i' (by simpa using hi)
              simpa using this

/-- C8: for every stack and `h ≥ 0`, whenever `remove_background` returns
(all per-frame reconstructions reach their fixed points within the given
fuel), its output is obtained by exactly the four steps, in order:
(1) divide the stack by its global maximum; (2) replace each frame `z` of
the normalised stack by `z − rec_z` where `rec_z` is a fixed point of the
3×3 dilate-and-clip sweep against mask `z`, reached by iterating the sweep
from the seed `z − h`; (3) apply the 3×3 local mean filter to each frame;
(4) divide by the new global maximum. -/
theorem remove_background_steps (fuel : ℕ) (s : Stack) (h : ℚ) (out : Stack)
    (_hh : 0 ≤ h) (hout : remove_background fuel s h = some out) :
    ∃ recs : List Frame, recs.length = s.length ∧
      (∀ i, i < s.length →
        dilateClip ((stackDiv s (stackMax s)).getD i []) (recs.getD i []) =
          recs.getD i [] ∧
        ∃ n, reconIter ((stackDiv s (stackMax s)).getD i []) n
          (subScalar ((stackDiv s (stackMax s)).getD i []) h) =
            recs.getD i []) ∧
      out = stackDiv
        ((List.zipWith frameSub (stackDiv s (stackMax s)) recs).map mean3)
        (stackMax
          ((List.zipWith frameSub (stackDiv s (stackMax s)) recs).map
            mean3)) := by
  unfold remove_background at hout
  have hlen1 : (stackDiv s (stackMax s)).length = s.length := by
    unfold stackDiv; simp
  cases hmap : mapFramesOpt (fun z => regional_filter fuel z h)
      (stackDiv s (stackMax s)) with
  | none => simp only [hmap] at hout; exact Option.noConfusion hout
  | some s2 =>
    simp only [hmap] at hout
    injection hout with hout
    obtain ⟨recs, hlen, hzip, hprop⟩ :=
      mapFramesOpt_regional fuel h (stackDiv s (stackMax s)) s2 hmap
    refine ⟨recs, by omega, ?_, ?_⟩
    · intro i hi
      exact hprop i (by omega)
    · rw [← hout, hzip]

/-- Witness for C8's theorem on the stack `[[[2]]]` with `h = 1/2`
(normalised frame `[[1]]`, reconstruction `[[1/2]]`, output `[[[1]]]`). -/
theorem remove_background_steps_witness :
    (0 : ℚ) ≤ 1/2 ∧
    remove_background 1 [[[2]]] (1/2) = some [[[1]]] ∧
    (∃ recs : List Frame, recs.length = ([[[2]]] : Stack).length ∧
      (∀ i, i < ([[[2]]] : Stack).length →
        dilateClip ((stackDiv [[[2]]] (stackMax [[[2]]])).getD i [])
            (recs.getD i []) = recs.getD i [] ∧
        ∃ n, reconIter ((stackDiv [[[2]]] (stackMax [[[2]]])).getD i []) n
          (subScalar ((stackDiv [[[2]]] (stackMax [[[2]]])).getD i [])
            (1/2)) = recs.getD i []) ∧
      ([[[1]]] : Stack) = stackDiv
        ((List.zipWith frameSub (stackDiv [[[2]]] (stackMax [[[2]]]))
          recs).map mean3)
        (stackMax
          ((List.zipWith frameSub (stackDiv [[[2]]] (stackMax [[[2]]]))
            recs).map mean3))) :=
  ⟨by decide, by decide,
    remove_background_steps 1 [[[2]]] (1/2) [[[1]]] (by decide) (by decide)⟩

/- ### C10: in-place frame effects of the three stack methods -/

/-- C10: `correct_geometric_distortion` and `remove_background` (when its
reconstructions converge) overwrite the stack's frame data in place — the
post-call state holds the transformed frames, the original data is gone —
and return Python `None`, not a new stack.  `rotate_patterns`, however,
raises `NameError` (C7) and leaves the stack unchanged, so the claim fails
for it: it never overwrites anything. -/
theorem stack_methods_in_place :
    (∀ (angle : ℚ) (env : String → Frame → Frame) (s : Stack),
      rotate_patterns angle env s =
        (.error "NameError: name _affine_transformation is not defined",
          s)) ∧
    (∀ (warp : Frame → Frame) (s : Stack),
      correct_geometric_distortion warp s = (.ok none, s.map warp)) ∧
    (∀ (fuel : ℕ) (s : Stack) (h : ℚ) (out : Stack),
      remove_background fuel s h = some out →
      remove_background_call fuel s h = (.ok none, out)) := by
  refine ⟨fun angle env s => ?_, fun warp s => rfl, fun fuel s h out hout => ?_⟩
  · unfold rotate_patterns
    rw [if_neg (by decide)]
  · unfold remove_background_call
    rw [hout]

/-- Witness for C10's theorem: all three methods evaluated on concrete
one-frame stacks. -/
theorem stack_methods_in_place_witness :
    rotate_patterns 0 (fun _ z => z) [[[3]]] =
      (.error "NameError: name _affine_transformation is not defined",
        [[[3]]]) ∧
    correct_geometric_distortion (fun z => z.map (List.map (· + 1)))
        [[[3]]] =
      (.ok none, ([[[3]]] : Stack).map fun z => z.map (List.map (· + 1))) ∧
    (remove_background 1 [[[3]]] (1/2) = some [[[1]]] ∧
      remove_background_call 1 [[[3]]] (1/2) = (.ok none, [[[1]]])) :=
  ⟨(stack_methods_in_place.1 0 (fun _ z => z) [[[3]]]),
    (stack_methods_in_place.2.1 _ [[[3]]]),
    by decide,
    (stack_methods_in_place.2.2 1 [[[3]]] (1/2) [[[1]]] (by decide))⟩

/- ### C9: `get_vacuum_mask` -/

/-- The claim's description of beam-zeroing: set every pixel inside the
circle of `radius` around `center` to `0`, keep every other pixel.  (Second,
spec-side formulation, to be compared with the source's
invert-mask-and-multiply route.) -/
def beamZeroed (center : ℚ × ℚ) (radius : ℚ) (z : Frame) : Frame :=
  (List.range z.length).map fun (i : ℕ) =>
    (List.range ((z.getD i []).length)).map fun (j : ℕ) =>
      if ((j : ℚ) - center.1) ^ 2 + ((i : ℚ) - center.2) ^ 2 ≤ radius ^ 2
      then 0 else px z i j

/-- Multiplying a rectangular frame elementwise with the inverted circular
mask zeroes exactly the pixels inside the circle. -/
theorem pyMul_invert_circular (z : Frame) (H W : ℕ) (radius : ℚ)
    (c : ℚ × ℚ) (hz : rectangular z H W) :
    pyMul z (invertMask (circular_mask (W, H) radius c)) =
      beamZeroed c radius z := by
  unfold pyMul beamZeroed
  apply List.map_congr_left
  intro i hi
  rw [List.mem_range] at hi
  apply List.map_congr_left
  intro j hj
  rw [List.mem_range] at hj
  have hiH : i < H := hz.1 ▸ hi
  have hjW : j < W := by
    have hmem : z.getD i [] ∈ z := by
      rw [List.getD_eq_getElem?_getD, List.getElem?_eq_getElem hi]
      exact List.getElem_mem hi
    rw [hz.2 _ hmem] at hj
    exact hj
  unfold invertMask circular_mask
  rw [List.map_map, getD_map_range _ _ _ _ hiH]
  simp only [Function.comp_apply]
  simp only [List.map_map, getD_map_range _ _ _ _ hjW,
    Function.comp_apply]
  by_cases hP : ((j : ℚ) - c.1) * ((j : ℚ) - c.1) +
      ((i : ℚ) - c.2) * ((i : ℚ) - c.2) ≤ radius * radius
  · simp [pow_two, hP]
  · simp [pow_two, hP]

/-- The claim's description of the whole pipeline: per-frame thresholding of
the beam-zeroed maximum, then optional closing (dilation with boundary
`false`, then erosion with boundary `true`), then optional opening (erosion
with boundary `true`, then dilation with boundary `false`), in that order. -/
def vacuumSpec (s : Stack) (radius : ℚ) (c : ℚ × ℚ) (t : ℚ)
    (closing opening : Bool) : List Bool :=
  let base := s.map fun z => decide (frameMax (beamZeroed c radius z) ≤ t)
  let m1 := if closing then binary_erosion (binary_dilation base false) true
    else base
  if opening then binary_dilation (binary_erosion m1 true) false else m1

/-- C9: for every stack of rectangular frames, radius, center, threshold and
flag combination, `get_vacuum_mask` marks index `i` true iff the maximum of
frame `i` after zeroing the direct-beam disc is ≤ the threshold, and then —
independently, in this order — applies closing (dilate with boundary false,
erode with boundary true) when the `closing` flag is set and opening (erode
with boundary true, dilate with boundary false) when the `opening` flag is
set; both flags may be set. -/
theorem get_vacuum_mask_spec (s : Stack) (radius : ℚ) (c : ℚ × ℚ) (t : ℚ)
    (cl op : Bool)
    (hrect : ∀ z ∈ s,
      rectangular z ((s.headD []).length) (ncols (s.headD []))) :
    get_vacuum_mask s radius (some c) t cl op =
      vacuumSpec s radius c t cl op := by
  have hdb : get_direct_beam_mask s radius (some c) =
      circular_mask (ncols (s.headD []), (s.headD []).length) radius c := rfl
  unfold get_vacuum_mask vacuumSpec
  have hbase : (s.map fun z => decide (frameMax (pyMul z
        (invertMask (get_direct_beam_mask s radius (some c)))) ≤ t)) =
      s.map fun z => decide (frameMax (beamZeroed c radius z) ≤ t) := by
    apply List.map_congr_left
    intro z hzmem
    rw [hdb, pyMul_invert_circular z ((s.headD []).length)
      (ncols (s.headD [])) radius c (hrect z hzmem)]
  simp only [hbase]

/-- Witness for C9's theorem on a two-frame stack (one vacuum frame, one
with a diffraction spot above threshold), with closing requested. -/
theorem get_vacuum_mask_spec_witness :
    (∀ z ∈ ([[[1,0],[0,0]], [[0,0],[0,3]]] : Stack),
      rectangular z
        ((([[[1,0],[0,0]], [[0,0],[0,3]]] : Stack).headD []).length)
        (ncols (([[[1,0],[0,0]], [[0,0],[0,3]]] : Stack).headD []))) ∧
    get_vacuum_mask [[[1,0],[0,0]], [[0,0],[0,3]]] 1 (some (0, 0)) 2
        true false =
      vacuumSpec [[[1,0],[0,0]], [[0,0],[0,3]]] 1 (0, 0) 2 true false :=
  ⟨by decide,
    get_vacuum_mask_spec [[[1,0],[0,0]], [[0,0],[0,3]]] 1 (0, 0) 2 true false
      (by decide)⟩
